import Mathlib

/-!
Shallow embedding of the parsecfg repository (BrokenShards/parsecfg).

Source files modelled: `src/name.rs`, `src/token.rs`, `src/lexer.rs`,
`src/key_value.rs`, `src/key.rs`, `src/section.rs`, `src/document.rs`,
`src/error.rs`.

Modelling conventions:
* Rust `String`/`&str` text is a `List Char` (`Str`).  The tokenizers reject
  any source whose UTF-8 byte length differs from its character count, so on
  every accepted source a byte index equals a character index; the models scan
  character lists directly and compute the byte length explicitly (`byteLen`)
  for that entry check.
* `i64`/`u64` are `Int`/`Nat` with the explicit bounds `2^63 - 1` / `2^64 - 1`
  checked where the Rust code's `str::parse` would overflow.
* `f64` literals are modelled exactly as rationals (`Rat`): the numeric
  literals in this grammar are plain decimal digit strings, and every claim
  compares values produced by the same parse function, so the float rounding
  step is irrelevant to the statements proved here.
* A Rust panic (an out-of-bounds index) is modelled by `Option`: `none` is a
  panic, `some r` is a normal return of `r`.
* Recursive loops whose progress measure is "tokens/characters consumed" are
  written structurally on an explicit fuel counter; every wrapper passes
  `length + 1` (or more) fuel, which is provably or evidently sufficient, and
  the fuel-exhaustion branch is unreachable on the inputs considered.
* Dynamic payloads of error messages that the Rust code builds with `format!`
  on a `Display` instance are reproduced via `tokenDisplay`/`String.mk`; the
  rendering of floats inside such messages is approximated (no claim observes
  any such message).
-/

namespace Parsecfg

/-- Rust text as a list of Unicode scalar values. -/
abbrev Str := List Char

/-- UTF-8 encoded width in bytes of one `char` (as in Rust's `char::len_utf8`). -/
def utf8Width (c : Char) : Nat :=
  if c.toNat < 128 then 1
  else if c.toNat < 2048 then 2
  else if c.toNat < 65536 then 3
  else 4

/-- Rust `str::len`: the UTF-8 byte length of the text. -/
def byteLen (s : Str) : Nat := (s.map utf8Width).sum

/-- Model of `error.rs` `CfgError`, a message-carrying error value.  `box_error` and
`make_error` both just wrap the message, so one constructor models both. -/
structure CfgErr where
  message : String
deriving DecidableEq

/-! ### `name.rs` -/

/-- Single-character action of Rust `char::to_lowercase`: the ASCII `A`-`Z`
shift.  On single-byte (ASCII) characters this is exactly the Unicode
mapping, and every use of this function in this development is evaluated on
single-byte text only; `rustToLowercase` below models the multi-character
Unicode mapping where it matters (the sanitizer's panic path). -/
def rustToLower (c : Char) : Char :=
  if 'A' ≤ c ∧ c ≤ 'Z' then Char.ofNat (c.toNat + 32) else c

/-- Lowercase every character, as Rust `str::to_lowercase` does on ASCII text. -/
def lowerStr (s : Str) : Str := s.map rustToLower

/-- Model of Rust `char::is_whitespace` restricted to single-byte
characters: space and the ASCII control whitespace `\t \n \x0B \x0C \r`.
Every non-ASCII `White_Space` code point is multi-byte in UTF-8, so on
single-byte text this is the exact predicate. -/
def rustIsWS (c : Char) : Bool := c.toNat == 32 || (9 ≤ c.toNat && c.toNat ≤ 13)

/-- Rust `str::trim`: surrounding whitespace removed (exact on single-byte
text, see `rustIsWS`). -/
def rustTrim (s : Str) : Str :=
  ((s.dropWhile rustIsWS).reverse.dropWhile rustIsWS).reverse

/-- Model of `name.rs` line 34: the first-position validity test of `is_valid_name`
(on the lowercased character): letter or underscore. -/
def ivnFirstBad (c : Char) : Bool := (c < 'a' || 'z' < c) && c != '_'

/-- Model of `name.rs` line 43: the non-first-position validity test of `is_valid_name`
(on the lowercased character): letter, digit or underscore. -/
def ivnRestBad (c : Char) : Bool :=
  (c < 'a' || 'z' < c) && (c < '0' || '9' < c) && c != '_'

/-- The character loop of `is_valid_name` (`name.rs` lines 30-48), with its
`first` flag. -/
def ivnLoop : Bool → Str → Bool
  | _, [] => true
  | true, c :: rest => if ivnFirstBad c then false else ivnLoop false rest
  | false, c :: rest => if ivnRestBad c then false else ivnLoop false rest

/-- Model of `name.rs` `is_valid_name`: non-empty, and case-insensitively the first
character is a letter or `_` and the rest are letters, digits or `_`. -/
def is_valid_name (name : Str) : Bool :=
  if name.isEmpty then false else ivnLoop true (lowerStr name)

/-- Model of `name.rs` lines 73/86: the replacement test of `as_valid_name` (identical
at both positions; digits are allowed even first, they only set `numstart`). -/
def avnInvalid (c : Char) : Bool :=
  (c < 'a' || 'z' < c) && (c < '0' || '9' < c) && c != '_'

/-- The index-collecting loop of `as_valid_name` (`name.rs` lines 69-93),
returning the positions (counted from `i`) whose character fails `avnInvalid`. -/
def avnIndices : Nat → Str → List Nat
  | _, [] => []
  | i, c :: rest =>
    if avnInvalid c then i :: avnIndices (i + 1) rest else avnIndices (i + 1) rest

/-- The `numstart` flag of `as_valid_name` (`name.rs` lines 65-93): set when
the first (lowercased) character passes the replacement test and is a digit. -/
def avnNumstart : Str → Bool
  | c :: _ => !avnInvalid c && ('0' ≤ c && c ≤ '9')
  | [] => false

/-- Character-level model of `name.rs` `as_valid_name`: trim, replace every
invalid character with `repl` (`result.remove(ind); result.insert(ind,
repl)` becomes `List.set`), and prepend `_` when the first (valid) character
is a digit.  This is exact for strings of single-byte characters, where the
source's char-counted indices coincide with the byte indices that
`String::remove`/`insert` actually take and each lowercased character is a
single character; `as_valid_name_rust` below keeps the byte-index semantics
of the source and with it the panic that multi-byte input can reach. -/
def as_valid_name (name : Str) (repl : Char) : Str :=
  let result := rustTrim name
  if result.isEmpty then [repl]
  else
    let lo := lowerStr result
    let inds := avnIndices 0 lo
    let replaced := inds.foldl (fun r i => r.set i repl) result
    if avnNumstart lo then '_' :: replaced else replaced

/-- Model of Rust `char::to_lowercase`: the possibly multi-character Unicode
lowercase mapping.  ASCII is the `A`-`Z` shift; of the non-ASCII table the
two rows this development evaluates the function on are reproduced — U+0130
(LATIN CAPITAL LETTER I WITH DOT ABOVE, lowercasing to `i` followed by
U+0307 COMBINING DOT ABOVE) and U+212A (KELVIN SIGN, lowercasing to `k`);
every other character maps to itself. -/
def rustToLowercase (c : Char) : List Char :=
  if 'A' ≤ c ∧ c ≤ 'Z' then [Char.ofNat (c.toNat + 32)]
  else if c.toNat = 0x130 then ['i', Char.ofNat 0x307]
  else if c.toNat = 0x212A then ['k']
  else [c]

/-- UTF-8 encoding of one character (Rust `char::encode_utf8`). -/
def utf8Bytes (c : Char) : List Nat :=
  let n := c.toNat
  if n < 0x80 then [n]
  else if n < 0x800 then [0xC0 + n / 0x40, 0x80 + n % 0x40]
  else if n < 0x10000 then
    [0xE0 + n / 0x1000, 0x80 + (n / 0x40) % 0x40, 0x80 + n % 0x40]
  else
    [0xF0 + n / 0x40000, 0x80 + (n / 0x1000) % 0x40, 0x80 + (n / 0x40) % 0x40,
     0x80 + n % 0x40]

/-- The UTF-8 byte string backing a Rust `String`. -/
def strBytes (s : Str) : List Nat := (s.map utf8Bytes).flatten

/-- One `result.remove(ind); result.insert(ind, repl)` step of
`as_valid_name` (`name.rs` lines 95-99) at the byte level: `String::remove`
panics (`none`) when the index is past the end or lands on a UTF-8
continuation byte (not a char boundary); otherwise the whole character
starting there is replaced by the encoding of `repl`. -/
def removeInsertByte (repl : Char) (bytes : List Nat) (i : Nat) : Option (List Nat) :=
  match bytes.get? i with
  | none => none
  | some b =>
    if 0x80 ≤ b ∧ b < 0xC0 then none
    else
      let w := if b < 0x80 then 1 else if b < 0xE0 then 2 else if b < 0xF0 then 3 else 4
      some (bytes.take i ++ utf8Bytes repl ++ bytes.drop (i + w))

/-- Byte-faithful model of `name.rs` `as_valid_name` (lines 53-107): the
index loop counts the characters of the Unicode-lowercased text, but the
collected counts are applied as byte indices into the original string by
`String::remove`/`insert`; `none` models the panic this mismatch can
produce on multi-byte input. -/
def as_valid_name_rust (name : Str) (repl : Char) : Option (List Nat) :=
  let result := rustTrim name
  if result.isEmpty then some (strBytes [repl])
  else
    let lo := (result.map rustToLowercase).flatten
    let inds := avnIndices 0 lo
    match inds.foldlM (removeInsertByte repl) (strBytes result) with
    | none => none
    | some replaced =>
      some (if avnNumstart lo then utf8Bytes '_' ++ replaced else replaced)

/-! ### `token.rs`: the token type -/

/-- Model of `token.rs` `Token`, extended with the five arithmetic tokens that
`lexer.rs` pushes (`Add`..`Modulo`); `string_to_tokens` never produces those. -/
inductive Token where
  | identifier : Str → Token
  | string : Str → Token
  | integer : Int → Token
  | unsigned : Nat → Token
  | float : Rat → Token
  | equals : Token
  | separator : Token
  | openBracket : Token
  | closeBracket : Token
  | openBrace : Token
  | closeBrace : Token
  | openParen : Token
  | closeParen : Token
  | add : Token
  | subtract : Token
  | multiply : Token
  | divide : Token
  | modulo : Token
deriving DecidableEq

/-- Model of `token.rs` `COMMENT_CHAR`. -/
def COMMENT_CHAR : Char := '#'

/-- Rendering of a token for interpolated error messages (`impl Display for
Token`); the arithmetic tokens (absent from that `impl`) and floats are
rendered in the obvious way — no claim observes these strings. -/
def tokenDisplay : Token → String
  | .identifier s => String.mk s
  | .string s => "\"" ++ String.mk s ++ "\""
  | .integer v => toString v
  | .unsigned v => toString v
  | .float v => toString v
  | .equals => "="
  | .separator => ","
  | .openBracket => "["
  | .closeBracket => "]"
  | .openBrace => "\x7b"
  | .closeBrace => "\x7d"
  | .openParen => "("
  | .closeParen => ")"
  | .add => "+"
  | .subtract => "-"
  | .multiply => "*"
  | .divide => "/"
  | .modulo => "%"

/-! ### Numeric literal scanning (identical blocks in `lexer.rs` 64-218 and
`token.rs` 118-263) -/

/-- Model of `NumberType` from `lexer.rs`/`token.rs`. -/
inductive NumberType where
  | integer : NumberType
  | unsigned : NumberType
  | float : NumberType
deriving DecidableEq

/-- The digit-run scan (`while end < slen \{...\}`, `lexer.rs` 73-101) over the
characters after the first one: returns the number of characters consumed, the
final `hasdot` flag, and the suffix-selected type when the run was stopped by
a non-digit. -/
def numScan : Str → Bool → Except CfgErr (Nat × Bool × Option NumberType)
  | [], hasdot => .ok (0, hasdot, none)
  | c :: rest, hasdot =>
    if c = '.' then
      if hasdot then .error ⟨"Number has multiple decimal points."⟩
      else
        match numScan rest true with
        | .ok (n, hd, nt) => .ok (n + 1, hd, nt)
        | .error e => .error e
    else if !c.isDigit then
      .ok (0, hasdot,
        match c with
        | 'i' => some .integer
        | 'I' => some .integer
        | 'u' => some .unsigned
        | 'U' => some .unsigned
        | 'f' => some .float
        | 'F' => some .float
        | _ => none)
    else
      match numScan rest hasdot with
      | .ok (n, hd, nt) => .ok (n + 1, hd, nt)
      | .error e => .error e

/-- Value of a digit string (the numeric literals here are unsigned decimal). -/
def natDigits (s : Str) : Nat := s.foldl (fun a c => a * 10 + (c.toNat - 48)) 0

/-- Model of Rust `str::parse::<f64>` on the digit/single-dot strings this
lexer produces: the exact decimal value as a rational. -/
def ratOfDecimal (s : Str) : Rat :=
  let ip := s.takeWhile (fun c => c != '.')
  let fp := (s.dropWhile (fun c => c != '.')).drop 1
  mkRat (natDigits ip * 10 ^ fp.length + natDigits fp) (10 ^ fp.length)

/-- Rust `str::parse::<i64>` on a digit string: overflow is an error. -/
def parseI64 (s : Str) : Except CfgErr Int :=
  let v := natDigits s
  if v ≤ 9223372036854775807 then .ok (v : Int)
  else .error ⟨"Failed parsing integer: number too large to fit in target type."⟩

/-- Rust `str::parse::<u64>` on a digit string: overflow is an error. -/
def parseU64 (s : Str) : Except CfgErr Nat :=
  let v := natDigits s
  if v ≤ 18446744073709551615 then .ok v
  else .error ⟨"Failed parsing unsigned integer: number too large to fit in target type."⟩

/-- Rust `as i64` on the non-negative floats arising here: truncation with
saturation at `i64::MAX`. -/
def f64asI64 (q : Rat) : Int := min q.floor 9223372036854775807

/-- Rust `as u64` on the non-negative floats arising here. -/
def f64asU64 (q : Rat) : Nat := min q.floor.toNat 18446744073709551615

/-- The token-construction `match numtype` (`lexer.rs` 128-209): an integer or
unsigned literal that contains a dot (its type forced by a suffix) is parsed
as a float and truncated; otherwise the fixed-width parse applies.  (The
`parse::<f64>` error branches are unreachable for the scanned digit strings
and are modelled as the always-`ok` `ratOfDecimal`.) -/
def numberToken (hasdot : Bool) (nt : NumberType) (rstr : Str) : Except CfgErr Token :=
  match nt with
  | .integer =>
    if hasdot then .ok (Token.integer (f64asI64 (ratOfDecimal rstr)))
    else
      match parseI64 rstr with
      | .ok v => .ok (Token.integer v)
      | .error e => .error e
  | .unsigned =>
    if hasdot then .ok (Token.unsigned (f64asU64 (ratOfDecimal rstr)))
    else
      match parseU64 rstr with
      | .ok v => .ok (Token.unsigned v)
      | .error e => .error e
  | .float => .ok (Token.float (ratOfDecimal rstr))

/-! ### `token.rs` `string_to_tokens` (lines 84-359) -/

/-- One `if` cascade iteration of the `string_to_tokens` scan loop, recursing
on fuel (one unit per loop iteration; each iteration consumes at least one
character, so `length + 1` fuel always suffices).  `acc` is the `result`
vector; the current position is represented by the remaining suffix. -/
def s2tLoop : Nat → List Token → Str → Except CfgErr (List Token)
  | 0, _, _ => .error ⟨"Lexer fuel exhausted."⟩
  | _ + 1, acc, [] => .ok acc
  | f + 1, acc, c :: rest =>
    if rustIsWS c then s2tLoop f acc rest
    else if c == COMMENT_CHAR then
      match rest.findIdx? (fun ch => ch == '\n') with
      | some e => s2tLoop f acc (rest.drop (e + 1))
      | none => .ok acc
    else
      let numdot := c == '.' && (match rest with | d :: _ => d.isDigit | [] => false)
      if numdot || c.isDigit then
        match numScan rest numdot with
        | .error e => .error e
        | .ok (n, hasdot, ntOpt) =>
          let inc := ntOpt.isSome
          let nt := ntOpt.getD (if hasdot then NumberType.float else NumberType.integer)
          let rstr := if numdot then '0' :: c :: rest.take n else c :: rest.take n
          match numberToken hasdot nt rstr with
          | .error e => .error e
          | .ok tk => s2tLoop f (acc ++ [tk]) (rest.drop (n + (if inc then 1 else 0)))
      else if c.isAlpha || c == '_' then
        let n := (rest.takeWhile (fun ch => ch.isAlpha || ch.isAlphanum || ch == '_')).length
        s2tLoop f (acc ++ [Token.identifier (c :: rest.take n)]) (rest.drop n)
      else if c == '=' then s2tLoop f (acc ++ [Token.equals]) rest
      else if c == ',' then s2tLoop f (acc ++ [Token.separator]) rest
      else if c == '[' then s2tLoop f (acc ++ [Token.openBracket]) rest
      else if c == ']' then s2tLoop f (acc ++ [Token.closeBracket]) rest
      else if c == '\x7b' then s2tLoop f (acc ++ [Token.openBrace]) rest
      else if c == '\x7d' then s2tLoop f (acc ++ [Token.closeBrace]) rest
      else if c == '(' then s2tLoop f (acc ++ [Token.openParen]) rest
      else if c == ')' then s2tLoop f (acc ++ [Token.closeParen]) rest
      else if c == '"' then
        match rest.findIdx? (fun ch => ch == '"') with
        | none => .error ⟨"String has no ending quote."⟩
        | some e =>
          let val := rest.take e
          let acc2 :=
            match acc.getLast? with
            | some (Token.string s) => acc.dropLast ++ [Token.string (s ++ val)]
            | _ => acc ++ [Token.string val]
          s2tLoop f acc2 (rest.drop (e + 1))
      else .error ⟨"Unrecognised token: " ++ String.mk [c]⟩

/-- Model of `token.rs` `string_to_tokens`: the multi-byte entry check, then the scan. -/
def string_to_tokens (s : Str) : Except CfgErr (List Token) :=
  if s.length ≠ byteLen s then
    .error ⟨"Unable to parse strings containing multi-byte characters to tokens."⟩
  else s2tLoop (s.length + 1) [] s

/-! ### `lexer.rs` `Lexer::parse_string` (lines 31-331)

The same scan with three differences: the five arithmetic characters get
their own tokens; the tokens are appended to the queue the `Lexer` already
holds; and the string-merge branch indexes `self.tokens[self.tokens.len() - 1]`
without an emptiness guard — on an empty queue `len() - 1` underflows and the
index panics, modelled as `none`. -/

/-- The scan loop of `Lexer::parse_string`; `none` models the panic. -/
def lexLoop : Nat → List Token → Str → Option (Except CfgErr (List Token))
  | 0, _, _ => some (.error ⟨"Lexer fuel exhausted."⟩)
  | _ + 1, acc, [] => some (.ok acc)
  | f + 1, acc, c :: rest =>
    if rustIsWS c then lexLoop f acc rest
    else if c == COMMENT_CHAR then
      match rest.findIdx? (fun ch => ch == '\n') with
      | some e => lexLoop f acc (rest.drop (e + 1))
      | none => some (.ok acc)
    else
      let numdot := c == '.' && (match rest with | d :: _ => d.isDigit | [] => false)
      if numdot || c.isDigit then
        match numScan rest numdot with
        | .error e => some (.error e)
        | .ok (n, hasdot, ntOpt) =>
          let inc := ntOpt.isSome
          let nt := ntOpt.getD (if hasdot then NumberType.float else NumberType.integer)
          let rstr := if numdot then '0' :: c :: rest.take n else c :: rest.take n
          match numberToken hasdot nt rstr with
          | .error e => some (.error e)
          | .ok tk => lexLoop f (acc ++ [tk]) (rest.drop (n + (if inc then 1 else 0)))
      else if c.isAlpha || c == '_' then
        let n := (rest.takeWhile (fun ch => ch.isAlpha || ch.isAlphanum || ch == '_')).length
        lexLoop f (acc ++ [Token.identifier (c :: rest.take n)]) (rest.drop n)
      else if c == '=' then lexLoop f (acc ++ [Token.equals]) rest
      else if c == ',' then lexLoop f (acc ++ [Token.separator]) rest
      else if c == '+' then lexLoop f (acc ++ [Token.add]) rest
      else if c == '-' then lexLoop f (acc ++ [Token.subtract]) rest
      else if c == '*' then lexLoop f (acc ++ [Token.multiply]) rest
      else if c == '/' then lexLoop f (acc ++ [Token.divide]) rest
      else if c == '%' then lexLoop f (acc ++ [Token.modulo]) rest
      else if c == '[' then lexLoop f (acc ++ [Token.openBracket]) rest
      else if c == ']' then lexLoop f (acc ++ [Token.closeBracket]) rest
      else if c == '\x7b' then lexLoop f (acc ++ [Token.openBrace]) rest
      else if c == '\x7d' then lexLoop f (acc ++ [Token.closeBrace]) rest
      else if c == '(' then lexLoop f (acc ++ [Token.openParen]) rest
      else if c == ')' then lexLoop f (acc ++ [Token.closeParen]) rest
      else if c == '"' then
        match rest.findIdx? (fun ch => ch == '"') with
        | none => some (.error ⟨"String has no ending quote."⟩)
        | some e =>
          let val := rest.take e
          if acc.isEmpty then
            none
          else
            let acc2 :=
              match acc.getLast? with
              | some (Token.string s) => acc.dropLast ++ [Token.string (s ++ val)]
              | _ => acc ++ [Token.string val]
            lexLoop f acc2 (rest.drop (e + 1))
      else some (.error ⟨"Unrecognised token: " ++ String.mk [c]⟩)

/-- Model of `Lexer::parse_string` from a lexer whose queue currently holds `tokens`. -/
def Lexer.parseString (tokens : List Token) (s : Str) :
    Option (Except CfgErr (List Token)) :=
  if s.length ≠ byteLen s then
    some (.error ⟨"Unable to parse strings containing multi-byte characters to tokens."⟩)
  else lexLoop (s.length + 1) tokens s

/-! ### `key_value.rs` / `key.rs`: the value tree and the recursive-descent
parser -/

mutual
/-- Model of `key_value.rs` `KeyValue`. -/
inductive KeyValue where
  | string : Str → KeyValue
  | integer : Int → KeyValue
  | unsigned : Nat → KeyValue
  | float : Rat → KeyValue
  | stringArray : List Str → KeyValue
  | integerArray : List Int → KeyValue
  | unsignedArray : List Nat → KeyValue
  | floatArray : List Rat → KeyValue
  | tuple : List KeyValue → KeyValue
  | table : List Key → KeyValue
/-- Model of `key.rs` `Key`: a name (sanitized at construction) and a value. -/
inductive Key where
  | mk : Str → KeyValue → Key
end

/-- The `m_name` field of a `Key`. -/
def Key.name : Key → Str
  | .mk n _ => n

/-- The `value` field of a `Key`. -/
def Key.value : Key → KeyValue
  | .mk _ v => v

/-- Model of `Key::new`: the name is passed through `as_valid_name(name, '_')`. -/
def Key.new (name : Str) (value : KeyValue) : Key :=
  .mk (as_valid_name name '_') value

/-- Model of `Key::is_valid`: `is_valid_name` on the stored name. -/
def Key.isValid (k : Key) : Bool := is_valid_name k.name

/-- The `Token::String(_)` array loop of `KeyValue::from_lexer`
(`key_value.rs` lines 75-137).  The source pre-pops the first element and
re-injects it via the `first` flag; the model re-prepends that token to the
queue instead, which yields the same result in every case (a pre-popped
scalar processed against an empty queue still ends in the missing-bracket
error).  `ready` is true when a new element may come (start, or just after a
separator). -/
def strArrLoop : Bool → List Str → List Token → Except CfgErr (List Str × List Token)
  | _, _, [] => .error ⟨"StringArray missing closing square bracket."⟩
  | ready, acc, Token.string s :: rest =>
    if ready then strArrLoop false (acc ++ [s]) rest
    else .error ⟨"Unexpected token; expected separator or close bracket."⟩
  | ready, acc, Token.separator :: rest =>
    if ready then .error ⟨"Unexpected token; expected string or close bracket."⟩
    else strArrLoop true acc rest
  | _, acc, Token.closeBracket :: rest => .ok (acc, rest)
  | _, _, t :: _ => .error ⟨"Unexpected token: " ++ tokenDisplay t ++ "."⟩

/-- The `Token::Integer(_)` array loop (`key_value.rs` lines 138-199). -/
def intArrLoop : Bool → List Int → List Token → Except CfgErr (List Int × List Token)
  | _, _, [] => .error ⟨"IntegerArray missing closing square bracket."⟩
  | ready, acc, Token.integer v :: rest =>
    if ready then intArrLoop false (acc ++ [v]) rest
    else .error ⟨"Unexpected token; expected separator or close bracket."⟩
  | ready, acc, Token.separator :: rest =>
    if ready then .error ⟨"Unexpected token; expected integer or close bracket."⟩
    else intArrLoop true acc rest
  | _, acc, Token.closeBracket :: rest => .ok (acc, rest)
  | _, _, _ :: _ => .error ⟨"Unexpected token."⟩

/-- The `Token::Unsigned(_)` array loop (`key_value.rs` lines 200-262). -/
def unsArrLoop : Bool → List Nat → List Token → Except CfgErr (List Nat × List Token)
  | _, _, [] => .error ⟨"UnsignedArray missing closing square bracket."⟩
  | ready, acc, Token.unsigned v :: rest =>
    if ready then unsArrLoop false (acc ++ [v]) rest
    else .error ⟨"Unexpected token; expected separator or close bracket."⟩
  | ready, acc, Token.separator :: rest =>
    if ready then .error ⟨"Unexpected token; expected unsigned integer or close bracket."⟩
    else unsArrLoop true acc rest
  | _, acc, Token.closeBracket :: rest => .ok (acc, rest)
  | _, _, _ :: _ => .error ⟨"Unexpected token."⟩

/-- The `Token::Float(_)` array loop (`key_value.rs` lines 263-324). -/
def fltArrLoop : Bool → List Rat → List Token → Except CfgErr (List Rat × List Token)
  | _, _, [] => .error ⟨"FloatArray missing closing square bracket."⟩
  | ready, acc, Token.float v :: rest =>
    if ready then fltArrLoop false (acc ++ [v]) rest
    else .error ⟨"Unexpected token; expected separator or close bracket."⟩
  | ready, acc, Token.separator :: rest =>
    if ready then .error ⟨"Unexpected token; expected float or close bracket."⟩
    else fltArrLoop true acc rest
  | _, acc, Token.closeBracket :: rest => .ok (acc, rest)
  | _, _, _ :: _ => .error ⟨"Unexpected token."⟩

/-- Model of `Key::from_lexer` (`key.rs` lines 45-80), abstracted over the value
parser it delegates to (the concrete instantiations below supply
`KeyValue`'s parser at the appropriate fuel): length check, `Identifier`,
`Equals`, then the value; the identifier text becomes the key's name through
`Key::new`'s sanitization. -/
def keyG (pv : List Token → Except CfgErr (KeyValue × List Token))
    (ts : List Token) : Except CfgErr (Key × List Token) :=
  if ts.length < 3 then .error ⟨"Not enough tokens left to load Key."⟩
  else
    match ts with
    | Token.identifier id :: Token.equals :: rest =>
      match pv rest with
      | .ok (v, rem) => .ok (Key.new id v, rem)
      | .error e => .error ⟨"Failed parsing KeyValue: " ++ e.message⟩
    | Token.identifier _ :: _ :: _ => .error ⟨"Unexpected token. Expected Equals."⟩
    | _ => .error ⟨"Unexpected token. Expected Identifier."⟩

/-- The tuple loop of `KeyValue::from_lexer` (`key_value.rs` lines 334-379),
abstracted over the element parser; one fuel unit per iteration. -/
def tupleLoopG (pv : List Token → Except CfgErr (KeyValue × List Token)) :
    Nat → Bool → List KeyValue → List Token → Except CfgErr (List KeyValue × List Token)
  | 0, _, _, _ => .error ⟨"Lexer fuel exhausted."⟩
  | _ + 1, _, _, [] => .error ⟨"Tuple missing closing parenthesis."⟩
  | f + 1, ready, acc, t :: rest =>
    if t = Token.closeParen then .ok (acc, rest)
    else if !ready then
      if t = Token.separator then tupleLoopG pv f true acc rest
      else .error ⟨"Unexpected token: " ++ tokenDisplay t ++ ". Expected comma."⟩
    else
      match pv (t :: rest) with
      | .ok (v, rem) => tupleLoopG pv f false (acc ++ [v]) rem
      | .error e => .error e

/-- The table loop of `KeyValue::from_lexer` (`key_value.rs` lines 380-434),
abstracted over the key parser.  Each parsed key is checked with
`Key::is_valid` (note: the only check — there is no duplicate-name test). -/
def tableLoopG (pk : List Token → Except CfgErr (Key × List Token)) :
    Nat → Bool → List Key → List Token → Except CfgErr (List Key × List Token)
  | 0, _, _, _ => .error ⟨"Lexer fuel exhausted."⟩
  | _ + 1, _, _, [] => .error ⟨"Table missing closing bracket."⟩
  | f + 1, ready, acc, t :: rest =>
    if t = Token.closeBrace then .ok (acc, rest)
    else if !ready then
      if t = Token.separator then tableLoopG pk f true acc rest
      else .error ⟨"Unexpected token: " ++ tokenDisplay t ++ ". Expected comma."⟩
    else
      match pk (t :: rest) with
      | .ok (k, rem) =>
        if !k.isValid then
          .error ⟨"Parsed Key: " ++ String.mk k.name ++ " invalid in Table."⟩
        else tableLoopG pk f false (acc ++ [k]) rem
      | .error e => .error e

/-- Model of `KeyValue::from_lexer` (`key_value.rs` lines 45-439), structurally
recursive on fuel: scalars pop one token; `[` dispatches on the next token to
the matching homogeneous array loop (`]` at once gives the empty string
array); `(` and `\x7b` run the tuple/table loops, whose element parsers are
this function (resp. `Key::from_lexer`) at one less fuel. -/
def kvF : Nat → List Token → Except CfgErr (KeyValue × List Token)
  | 0, _ => .error ⟨"Lexer fuel exhausted."⟩
  | _ + 1, [] => .error ⟨"Trying to load KeyValue from an empty lexer."⟩
  | f + 1, t :: rest =>
    match t with
    | Token.string s => .ok (.string s, rest)
    | Token.integer v => .ok (.integer v, rest)
    | Token.unsigned v => .ok (.unsigned v, rest)
    | Token.float v => .ok (.float v, rest)
    | Token.openBracket =>
      match rest with
      | [] => .error ⟨"Unexpected end of tokens: Incomplete Array."⟩
      | tok :: rest2 =>
        match tok with
        | Token.string _ =>
          match strArrLoop true [] (tok :: rest2) with
          | .ok (a, rem) => .ok (.stringArray a, rem)
          | .error e => .error e
        | Token.integer _ =>
          match intArrLoop true [] (tok :: rest2) with
          | .ok (a, rem) => .ok (.integerArray a, rem)
          | .error e => .error e
        | Token.unsigned _ =>
          match unsArrLoop true [] (tok :: rest2) with
          | .ok (a, rem) => .ok (.unsignedArray a, rem)
          | .error e => .error e
        | Token.float _ =>
          match fltArrLoop true [] (tok :: rest2) with
          | .ok (a, rem) => .ok (.floatArray a, rem)
          | .error e => .error e
        | Token.closeBracket => .ok (.stringArray [], rest2)
        | _ => .error ⟨"Unexpected token; expected value or close bracket."⟩
    | Token.openParen =>
      match tupleLoopG (kvF f) f true [] rest with
      | .ok (vs, rem) => .ok (.tuple vs, rem)
      | .error e => .error e
    | Token.openBrace =>
      match tableLoopG (keyG (kvF f)) f true [] rest with
      | .ok (ks, rem) => .ok (.table ks, rem)
      | .error e => .error e
    | _ => .error ⟨"Unable to load KeyValue from tokens, unexpected token found."⟩

/-- Wrapper for `KeyValue::from_lexer` on a lexer holding `ts`: `length + 1` fuel covers
every call chain, since each fuel level consumes at least one token or
iteration. -/
def KeyValue.fromLexer (ts : List Token) : Except CfgErr (KeyValue × List Token) :=
  kvF (ts.length + 1) ts

/-- Wrapper for `Key::from_lexer` on a lexer holding `ts`. -/
def Key.fromLexer (ts : List Token) : Except CfgErr (Key × List Token) :=
  keyG KeyValue.fromLexer ts

/-- The `tokenize` + `parse_value` pipeline of the spec's testable
properties: `Lexer::parse_string` on a fresh lexer, then
`KeyValue::from_lexer` on the resulting queue. -/
def tokenizeParse (s : Str) : Option (Except CfgErr (KeyValue × List Token)) :=
  match Lexer.parseString [] s with
  | none => none
  | some (.error e) => some (.error e)
  | some (.ok ts) => some (KeyValue.fromLexer ts)

/-! ### `section.rs` / `document.rs`: the collection layer -/

/-- Model of `section.rs` `Section`. -/
structure Section where
  m_name : Str
  m_keys : List Key

/-- Model of `Section::new`: the name is sanitized. -/
def Section.new (name : Str) (keys : List Key) : Section :=
  ⟨as_valid_name name '_', keys⟩

/-- The `m_name` accessor. -/
def Section.name (s : Section) : Str := s.m_name

/-- Model of `Section::is_valid`. -/
def Section.isValid (s : Section) : Bool := is_valid_name s.m_name

/-- The `is_section_tokens` closure of `Section::from_lexer` (`section.rs`
lines 49-82): at least three tokens ahead, shaped `[`, `Identifier`, `]`. -/
def is_section_tokens (ts : List Token) : Bool :=
  match ts with
  | Token.openBracket :: Token.identifier _ :: Token.closeBracket :: _ => true
  | _ => false

/-- The key-collecting loop of `Section::from_lexer` (`section.rs` lines
114-148): until the stream is empty or a section header starts, parse a key,
require validity, and reject a case-insensitive duplicate of a collected
name.  One fuel unit per key; each key consumes at least three tokens. -/
def sectionKeyLoop : Nat → Str → List Key → List Token → Except CfgErr (List Key × List Token)
  | 0, _, _, _ => .error ⟨"Lexer fuel exhausted."⟩
  | _ + 1, _, keys, [] => .ok (keys, [])
  | f + 1, id, keys, t :: rest =>
    if is_section_tokens (t :: rest) then .ok (keys, t :: rest)
    else
      match Key.fromLexer (t :: rest) with
      | .error e => .error ⟨"Failed loading key in section: " ++ e.message ++ "."⟩
      | .ok (k, rem) =>
        if !k.isValid then
          .error ⟨"Failed loading key in section " ++ String.mk k.name ++
            ": Parsed key is invalid."⟩
        else
          match keys.find? (fun ky => lowerStr ky.name = lowerStr k.name) with
          | some ky =>
            .error ⟨"Failed loading key in section " ++ String.mk id ++
              ": A key with the name " ++ String.mk ky.name ++ " already exists."⟩
          | none => sectionKeyLoop f id (keys ++ [k]) rem

/-- Model of `Section::from_lexer` (`section.rs` lines 43-152): the header recognizer
(`get_section_id`), then the key loop, then `Section::new`. -/
def Section.fromLexer (ts : List Token) : Except CfgErr (Section × List Token) :=
  if !is_section_tokens ts then
    .error ⟨"Failed loading section: Section header not found."⟩
  else
    match ts with
    | Token.openBracket :: Token.identifier id :: Token.closeBracket :: rest =>
      match sectionKeyLoop (rest.length + 1) id [] rest with
      | .ok (keys, rem) => .ok (Section.new id keys, rem)
      | .error e => .error e
    | _ => .error ⟨"Failed loading section: No section name found."⟩

/-- The index search of `Section::index_of` (`section.rs` lines 208-224),
case-insensitive on the already-lowercased needle. -/
def idxLoopKeys : Nat → Str → List Key → Option Nat
  | _, _, [] => none
  | i, key, ky :: rest =>
    if lowerStr ky.name = key then some i else idxLoopKeys (i + 1) key rest

/-- Model of `Section::index_of`. -/
def Section.index_of (sec : Section) (key : Str) : Option Nat :=
  idxLoopKeys 0 (lowerStr key) sec.m_keys

/-- Model of `Section::get`: lookup through `index_of`. -/
def Section.get (sec : Section) (key : Str) : Option Key :=
  match sec.index_of key with
  | some i => sec.m_keys.get? i
  | none => none

/-- Model of `document.rs` `Document`. -/
structure Document where
  m_sections : List Section

/-- The section-collecting loop of `Document::from_lexer` (`document.rs`
lines 53-80): parse a section, require validity, reject a case-insensitive
duplicate name.  One fuel unit per section. -/
def docLoop : Nat → List Section → List Token → Except CfgErr (List Section)
  | 0, _, _ => .error ⟨"Lexer fuel exhausted."⟩
  | _ + 1, sects, [] => .ok sects
  | f + 1, sects, t :: rest =>
    match Section.fromLexer (t :: rest) with
    | .error e => .error e
    | .ok (s, rem) =>
      if !s.isValid then
        .error ⟨"Cannot parse Document from tokens: The section " ++
          String.mk s.name ++ " is invalid."⟩
      else
        match sects.find? (fun sect => lowerStr sect.name = lowerStr s.name) with
        | some sect =>
          .error ⟨"Cannot parse Document from tokens: A section with the name " ++
            String.mk sect.name ++ " already exists."⟩
        | none => docLoop f (sects ++ [s]) rem

/-- Model of `Document::from_lexer` (`document.rs` lines 38-84). -/
def Document.fromLexer (ts : List Token) : Except CfgErr Document :=
  if ts.isEmpty then
    .error ⟨"Cannot parse Document from tokens: Index out of range."⟩
  else
    match docLoop (ts.length + 1) [] ts with
    | .ok sects => .ok ⟨sects⟩
    | .error e => .error e

/-- Model of `Document::from_str` (`document.rs` lines 85-116): tokenize with a fresh
`Lexer`, then `Document::from_lexer`; `none` propagates a tokenizer panic. -/
def Document.from_str (s : Str) : Option (Except CfgErr Document) :=
  match Lexer.parseString [] s with
  | none => none
  | some (.error e) =>
    some (.error ⟨"Cannot parse string into tokens to create a document: " ++ e.message⟩)
  | some (.ok ts) =>
    match Document.fromLexer ts with
    | .ok d => some (.ok d)
    | .error e => some (.error ⟨"Cannot parse document from string: " ++ e.message⟩)

/-- The index search of `Document::index_of` (`document.rs` lines 170-186). -/
def idxLoopSections : Nat → Str → List Section → Option Nat
  | _, _, [] => none
  | i, key, s :: rest =>
    if lowerStr s.name = key then some i else idxLoopSections (i + 1) key rest

/-- Model of `Document::index_of`. -/
def Document.index_of (doc : Document) (sectName : Str) : Option Nat :=
  idxLoopSections 0 (lowerStr sectName) doc.m_sections

/-- Model of `Document::get`: lookup through `index_of`. -/
def Document.get (doc : Document) (sectName : Str) : Option Section :=
  match doc.index_of sectName with
  | some i => doc.m_sections.get? i
  | none => none

/-- Classifier for the tokens the integer-array loop consumes without error:
an integer element, a separator, or the closing bracket (every other token
hits the loop's catch-all error arm). -/
def intArrElemTokOk : Token → Bool
  | .integer _ => true
  | .separator => true
  | .closeBracket => true
  | _ => false

/-- The document text of the round-trip scenario. -/
def c8_source : Str :=
  "[Size]\nWidth = 800u\nHeight = 600u\n[Position]\nX = 20\nY = 40".data

/-- The `Size` section that scenario should produce. -/
def c8_size : Section :=
  ⟨"Size".data,
   [Key.mk ("Width".data) (KeyValue.unsigned 800),
    Key.mk ("Height".data) (KeyValue.unsigned 600)]⟩

/-- The `Position` section that scenario should produce. -/
def c8_position : Section :=
  ⟨"Position".data,
   [Key.mk ("X".data) (KeyValue.integer 20),
    Key.mk ("Y".data) (KeyValue.integer 40)]⟩

/-- The document that scenario should produce. -/
def c8_document : Document := ⟨[c8_size, c8_position]⟩

/-! ## Theorems -/

/-- C1, counterexample: the claim says parsing `\x7ba=1, a=2\x7d` fails with a
duplicate-name error, but the table branch of `KeyValue::from_lexer` performs
no duplicate check: the parse succeeds, keeping both keys named `a`. -/
theorem claim1_counterexample :
    tokenizeParse ("\x7ba=1, a=2\x7d".data) =
      some (.ok (KeyValue.table
        [Key.mk ("a".data) (KeyValue.integer 1),
         Key.mk ("a".data) (KeyValue.integer 2)], [])) := rfl

/-- C1, amended: each parsed table key must pass name validation, but a
case-insensitive duplicate of an already-collected name is not rejected:
`\x7ba=1, a=2\x7d` succeeds with both keys named `a` kept in insertion order, and
`\x7ba=1, b=2\x7d` succeeds with the two keys in insertion order. -/
theorem claim1_table_keys :
    tokenizeParse ("\x7ba=1, b=2\x7d".data) =
      some (.ok (KeyValue.table
        [Key.mk ("a".data) (KeyValue.integer 1),
         Key.mk ("b".data) (KeyValue.integer 2)], []))
    ∧ tokenizeParse ("\x7ba=1, a=2\x7d".data) =
      some (.ok (KeyValue.table
        [Key.mk ("a".data) (KeyValue.integer 1),
         Key.mk ("a".data) (KeyValue.integer 2)], [])) := ⟨rfl, rfl⟩

/-- C2, counterexample: the claim says a separator directly followed by the
close bracket (`[1,]`) is an error, but every array loop accepts the closing
bracket unconditionally, so `[1,]` parses to `IntegerArray([1])`. -/
theorem claim2_counterexample :
    tokenizeParse ("[1,]".data) =
      some (.ok (KeyValue.integerArray [1], [])) := rfl

/-- C2, amended: in each of the four array loops the closing bracket ends the
array in every state, also directly after a separator — the trailing comma of
`[1,]` is accepted and the parse yields `IntegerArray([1])`. -/
theorem claim2_trailing_separator_accepted :
    (∀ (acc : List Int) (rest : List Token),
      intArrLoop true acc (Token.closeBracket :: rest) = .ok (acc, rest))
    ∧ (∀ (acc : List Str) (rest : List Token),
      strArrLoop true acc (Token.closeBracket :: rest) = .ok (acc, rest))
    ∧ (∀ (acc : List Nat) (rest : List Token),
      unsArrLoop true acc (Token.closeBracket :: rest) = .ok (acc, rest))
    ∧ (∀ (acc : List Rat) (rest : List Token),
      fltArrLoop true acc (Token.closeBracket :: rest) = .ok (acc, rest))
    ∧ tokenizeParse ("[1,]".data) = some (.ok (KeyValue.integerArray [1], [])) :=
  ⟨fun _ _ => rfl, fun _ _ => rfl, fun _ _ => rfl, fun _ _ => rfl, rfl⟩

/-- C3: adjacent string literals merge at lex time into a single `String`
token holding the concatenation, across whitespace and across comments, in
`string_to_tokens`; `Lexer::parse_string` merges identically as soon as the
queue is non-empty (its behaviour on a queue-initial string literal is the
separate defect of C4). -/
theorem claim3_adjacent_strings_merge :
    string_to_tokens ("\"Ban\" \"ana\"".data) = .ok [Token.string ("Banana".data)]
    ∧ string_to_tokens ("\"Ban\" # comment\n \"ana\"".data) =
        .ok [Token.string ("Banana".data)]
    ∧ Lexer.parseString [Token.equals] ("\"Ban\" \"ana\"".data) =
        some (.ok [Token.equals, Token.string ("Banana".data)]) := ⟨rfl, rfl, rfl⟩

/-- C4: `Lexer::parse_string` does not return normally on every input — when
the first token scanned is a string literal the merge branch indexes
`self.tokens[self.tokens.len() - 1]` on an empty queue, a usize underflow
panic (`none` in the model); the sibling `string_to_tokens`, which guards the
same access with `result.last()`, returns `Ok` on the same source. -/
theorem claim4_first_string_token_panics :
    Lexer.parseString [] ("\"abc\"".data) = none
    ∧ string_to_tokens ("\"abc\"".data) = .ok [Token.string ("abc".data)] :=
  ⟨rfl, rfl⟩

/-- C6: tokenize then parse recovers each scalar literal's semantic value,
the type forced by the suffix or inferred from the decimal point: `500` ⇒
Integer 500, `0.67` ⇒ Float 67/100, `400i` ⇒ Integer 400, `300u` ⇒
Unsigned 300, `200f` ⇒ Float 200. -/
theorem claim6_scalar_literal_roundtrip :
    tokenizeParse ("500".data) = some (.ok (KeyValue.integer 500, []))
    ∧ tokenizeParse ("0.67".data) = some (.ok (KeyValue.float (mkRat 67 100), []))
    ∧ tokenizeParse ("400i".data) = some (.ok (KeyValue.integer 400, []))
    ∧ tokenizeParse ("300u".data) = some (.ok (KeyValue.unsigned 300, []))
    ∧ tokenizeParse ("200f".data) = some (.ok (KeyValue.float (mkRat 200 1), [])) :=
  ⟨rfl, rfl, rfl, rfl, rfl⟩

/-- C7: once fixed as an integer array, every element position accepts
exactly integer elements — any token other than an integer, a separator or
the close bracket is a fatal kind-mismatch error in any loop state — so
`[1, 2.5]` is rejected while `[1, 2, 3]` parses to `IntegerArray([1,2,3])`. -/
theorem claim7_array_homogeneity :
    (∀ t : Token, intArrElemTokOk t = false →
      ∀ (ready : Bool) (acc : List Int) (rest : List Token),
        intArrLoop ready acc (t :: rest) = .error ⟨"Unexpected token."⟩)
    ∧ tokenizeParse ("[1, 2.5]".data) = some (.error ⟨"Unexpected token."⟩)
    ∧ tokenizeParse ("[1, 2, 3]".data) =
        some (.ok (KeyValue.integerArray [1, 2, 3], [])) := by
  refine ⟨?_, rfl, rfl⟩
  intro t h ready acc rest
  cases t <;> simp [intArrElemTokOk] at h <;> rfl

/-- C7 witness: the kind-mismatch arm at a concrete float element. -/
theorem claim7_witness :
    intArrLoop true [1] [Token.float (mkRat 5 2)] = .error ⟨"Unexpected token."⟩ :=
  claim7_array_homogeneity.1 (Token.float (mkRat 5 2)) rfl true [1] []

/-- C8: the round-trip document text parses to exactly the two sections
`Size` (Width=Unsigned 800, Height=Unsigned 600) and `Position` (X=Integer
20, Y=Integer 40), and section and key lookups match case-insensitively. -/
theorem claim8_document_roundtrip :
    Document.from_str c8_source = some (.ok c8_document)
    ∧ c8_document.index_of ("size".data) = some 0
    ∧ c8_document.index_of ("POSITION".data) = some 1
    ∧ c8_document.get ("SIZE".data) = some c8_size
    ∧ c8_size.index_of ("wIdTh".data) = some 0
    ∧ c8_size.index_of ("HEIGHT".data) = some 1
    ∧ c8_position.index_of ("x".data) = some 0
    ∧ c8_position.get ("y".data) = some (Key.mk ("Y".data) (KeyValue.integer 40)) :=
  ⟨rfl, rfl, rfl, rfl, rfl, rfl, rfl, rfl⟩

/-- C9: `Key::from_lexer` fails fast with the not-enough-tokens error when
fewer than three tokens remain; with enough tokens it requires an
`Identifier` then an `Equals` (each fatal when absent), then delegates to
`KeyValue::from_lexer`, the identifier text becoming the key's name through
`as_valid_name` sanitization. -/
theorem claim9_key_from_lexer :
    (∀ ts : List Token, ts.length < 3 →
      Key.fromLexer ts = .error ⟨"Not enough tokens left to load Key."⟩)
    ∧ (∀ (t : Token) (ts : List Token), (∀ s, t ≠ Token.identifier s) →
        ¬ (t :: ts).length < 3 →
        Key.fromLexer (t :: ts) = .error ⟨"Unexpected token. Expected Identifier."⟩)
    ∧ (∀ (id : Str) (t : Token) (ts : List Token), t ≠ Token.equals → ts ≠ [] →
        Key.fromLexer (Token.identifier id :: t :: ts) =
          .error ⟨"Unexpected token. Expected Equals."⟩)
    ∧ (∀ (id : Str) (rest : List Token), rest ≠ [] →
        Key.fromLexer (Token.identifier id :: Token.equals :: rest) =
          match KeyValue.fromLexer rest with
          | .ok (v, rem) => .ok (Key.mk (as_valid_name id '_') v, rem)
          | .error e => .error ⟨"Failed parsing KeyValue: " ++ e.message⟩) := by
  refine ⟨?_, ?_, ?_, ?_⟩
  · intro ts h
    unfold Key.fromLexer keyG
    rw [if_pos h]
  · intro t ts hid hlen
    unfold Key.fromLexer keyG
    rw [if_neg hlen]
    cases t with
    | identifier s => exact absurd rfl (hid s)
    | _ => rfl
  · intro id t ts hne hts
    cases ts with
    | nil => exact absurd rfl hts
    | cons a l =>
      unfold Key.fromLexer keyG
      rw [if_neg (by simp)]
      cases t with
      | equals => exact absurd rfl hne
      | _ => rfl
  · intro id rest hrest
    cases rest with
    | nil => exact absurd rfl hrest
    | cons a l => rfl

/-- C9 witness: all four branches at concrete token streams. -/
theorem claim9_witness :
    Key.fromLexer [Token.equals] = .error ⟨"Not enough tokens left to load Key."⟩
    ∧ Key.fromLexer [Token.integer 1, Token.equals, Token.integer 2] =
        .error ⟨"Unexpected token. Expected Identifier."⟩
    ∧ Key.fromLexer [Token.identifier ("a".data), Token.separator, Token.integer 1] =
        .error ⟨"Unexpected token. Expected Equals."⟩
    ∧ Key.fromLexer [Token.identifier ("a".data), Token.equals, Token.integer 5] =
        .ok (Key.mk ("a".data) (KeyValue.integer 5), []) :=
  ⟨claim9_key_from_lexer.1 [Token.equals] (by decide),
   claim9_key_from_lexer.2.1 (Token.integer 1) [Token.equals, Token.integer 2]
     (fun s h => by cases h) (by decide),
   claim9_key_from_lexer.2.2.1 ("a".data) Token.separator [Token.integer 1]
     (by decide) (by decide),
   (claim9_key_from_lexer.2.2.2 ("a".data) [Token.integer 5] (by decide)).trans rfl⟩

/-- Every character encodes to at least one byte. -/
theorem one_le_utf8Width (c : Char) : 1 ≤ utf8Width c := by
  unfold utf8Width
  split
  · exact Nat.le_refl 1
  · split
    · omega
    · split <;> omega

/-- The character count never exceeds the byte count. -/
theorem length_le_byteLen (s : Str) : s.length ≤ byteLen s := by
  induction s with
  | nil => simp [byteLen]
  | cons c rest ih =>
    have := one_le_utf8Width c
    simp only [byteLen, List.map_cons, List.sum_cons, List.length_cons]
    simp only [byteLen] at ih
    omega

/-- A multi-byte character makes the byte count strictly larger than the
character count, so the two differ. -/
theorem length_ne_byteLen_of_multibyte (s : Str)
    (h : s.any (fun c => utf8Width c != 1) = true) : s.length ≠ byteLen s := by
  have hlt : s.length < byteLen s := by
    induction s with
    | nil => simp at h
    | cons c rest ih =>
      simp only [List.any_cons, Bool.or_eq_true, bne_iff_ne] at h
      simp only [byteLen, List.map_cons, List.sum_cons, List.length_cons]
      rcases h with h | h
      · have h1 := one_le_utf8Width c
        have h2 : 2 ≤ utf8Width c := by
          by_cases hc : c.toNat < 128
          · exact absurd (by unfold utf8Width; rw [if_pos hc]) h
          · unfold utf8Width
            rw [if_neg hc]
            split
            · omega
            · split <;> omega
        have := length_le_byteLen rest
        simp only [byteLen] at this
        omega
      · have := ih (by simpa using h)
        have h1 := one_le_utf8Width c
        simp only [byteLen] at this
        omega
  omega

/-- C10: any source containing a character whose UTF-8 byte width is not one
unit is rejected up front by both tokenizers with the encoding error, before
any token is produced. -/
theorem claim10_multibyte_rejected :
    ∀ s : Str, s.any (fun c => utf8Width c != 1) = true →
      string_to_tokens s =
        .error ⟨"Unable to parse strings containing multi-byte characters to tokens."⟩
      ∧ ∀ toks : List Token, Lexer.parseString toks s =
        some (.error ⟨"Unable to parse strings containing multi-byte characters to tokens."⟩) := by
  intro s h
  constructor
  · unfold string_to_tokens
    rw [if_pos (length_ne_byteLen_of_multibyte s h)]
  · intro toks
    unfold Lexer.parseString
    rw [if_pos (length_ne_byteLen_of_multibyte s h)]

/-- C10 witness: the two-byte character `é`. -/
theorem claim10_witness :
    string_to_tokens ("é".data) =
      .error ⟨"Unable to parse strings containing multi-byte characters to tokens."⟩
    ∧ Lexer.parseString [] ("é".data) =
      some (.error ⟨"Unable to parse strings containing multi-byte characters to tokens."⟩) :=
  ⟨(claim10_multibyte_rejected ("é".data) rfl).1,
   (claim10_multibyte_rejected ("é".data) rfl).2 []⟩

/-! ### Character- and list-level helper lemmas for the sanitizer -/

/-- Comparison of `Char` is code-point comparison. -/
theorem char_lt_iff (c d : Char) : (c < d) ↔ c.toNat < d.toNat := Iff.rfl

/-- Comparison of `Char` is code-point comparison. -/
theorem char_le_iff (c d : Char) : (c ≤ d) ↔ c.toNat ≤ d.toNat := Iff.rfl

/-- Equality of `Char` is code-point equality. -/
theorem char_eq_iff (c d : Char) : c = d ↔ c.toNat = d.toNat :=
  ⟨fun h => h ▸ rfl,
   fun h => Char.eq_of_val_eq (UInt32.eq_of_toBitVec_eq (BitVec.eq_of_toNat_eq h))⟩

/-- Code point of `a`. -/
theorem toNat_lower_a : 'a'.toNat = 97 := rfl

/-- Code point of `z`. -/
theorem toNat_lower_z : 'z'.toNat = 122 := rfl

/-- Code point of `0`. -/
theorem toNat_digit_0 : '0'.toNat = 48 := rfl

/-- Code point of `9`. -/
theorem toNat_digit_9 : '9'.toNat = 57 := rfl

/-- Code point of `_`. -/
theorem toNat_underscore : '_'.toNat = 95 := rfl

/-- Code point of `A`. -/
theorem toNat_upper_A : 'A'.toNat = 65 := rfl

/-- Code point of `Z`. -/
theorem toNat_upper_Z : 'Z'.toNat = 90 := rfl

/-- Arithmetic characterization of the replacement test of `as_valid_name`. -/
theorem avnInvalid_iff (c : Char) : avnInvalid c = true ↔
    (c.toNat < 97 ∨ 122 < c.toNat) ∧ (c.toNat < 48 ∨ 57 < c.toNat) ∧ c.toNat ≠ 95 := by
  simp only [avnInvalid, Bool.and_eq_true, Bool.or_eq_true, decide_eq_true_eq,
    bne_iff_ne, ne_eq, char_lt_iff, char_eq_iff, toNat_lower_a, toNat_lower_z,
    toNat_digit_0, toNat_digit_9, toNat_underscore]
  tauto

/-- Arithmetic characterization of the first-position test of
`is_valid_name`. -/
theorem ivnFirstBad_iff (c : Char) : ivnFirstBad c = true ↔
    (c.toNat < 97 ∨ 122 < c.toNat) ∧ c.toNat ≠ 95 := by
  simp only [ivnFirstBad, Bool.and_eq_true, Bool.or_eq_true, decide_eq_true_eq,
    bne_iff_ne, ne_eq, char_lt_iff, char_eq_iff, toNat_lower_a, toNat_lower_z,
    toNat_underscore]

/-- The rest-position test of `is_valid_name` is literally the replacement
test of `as_valid_name`. -/
theorem ivnRestBad_eq_avnInvalid (c : Char) : ivnRestBad c = avnInvalid c := rfl

/-- A whitespace character is (case-insensitively) invalid in a name. -/
theorem ws_invalid (c : Char) (h : rustIsWS c = true) :
    avnInvalid (rustToLower c) = true := by
  simp only [rustIsWS, Bool.or_eq_true, Bool.and_eq_true, beq_iff_eq,
    decide_eq_true_eq] at h
  have hlow : rustToLower c = c := by
    unfold rustToLower
    rw [if_neg]
    rintro ⟨h1, _⟩
    rw [char_le_iff, toNat_upper_A] at h1
    omega
  rw [hlow, avnInvalid_iff]
  omega

/-- A character whose lowercase form survives the replacement test is not a
digit when it also passes the first-position validity test. -/
theorem digit_false_of_firstOk (c : Char) (h : ivnFirstBad c = false) :
    ('0' ≤ c && c ≤ '9') = false := by
  rw [Bool.eq_false_iff] at h ⊢
  intro hd
  apply h
  rw [ivnFirstBad_iff]
  simp only [Bool.and_eq_true, decide_eq_true_eq, char_le_iff, toNat_digit_0,
    toNat_digit_9] at hd
  omega

/-- Applying `dropWhile` with an everywhere-false predicate is the identity. -/
theorem dropWhile_eq_self_of_false (p : Char → Bool) :
    ∀ l : Str, (∀ c ∈ l, p c = false) → l.dropWhile p = l
  | [], _ => rfl
  | c :: rest, h => by
    have hc : p c = false := h c (List.mem_cons_self c rest)
    simp [List.dropWhile, hc]

/-- Applying `rustTrim` to a whitespace-free string is the identity. -/
theorem rustTrim_eq_self (l : Str) (h : ∀ c ∈ l, rustIsWS c = false) :
    rustTrim l = l := by
  unfold rustTrim
  rw [dropWhile_eq_self_of_false _ l h,
      dropWhile_eq_self_of_false _ l.reverse (fun c hc => h c (List.mem_reverse.mp hc)),
      List.reverse_reverse]

/-- Folding `set` over index positions preserves the length. -/
theorem foldl_set_length (repl : Char) :
    ∀ (L : List Nat) (r : Str), (L.foldl (fun a i => a.set i repl) r).length = r.length
  | [], _ => rfl
  | i :: L, r => by
    simp only [List.foldl_cons]
    rw [foldl_set_length repl L (r.set i repl), List.length_set]

/-- Pointwise description of folding `set` over a list of positions. -/
theorem foldl_set_getElem? (repl : Char) :
    ∀ (L : List Nat) (r : Str) (p : Nat),
      (L.foldl (fun a i => a.set i repl) r)[p]? =
        if p ∈ L ∧ p < r.length then some repl else r[p]?
  | [], r, p => by simp
  | i :: L, r, p => by
    simp only [List.foldl_cons]
    rw [foldl_set_getElem? repl L (r.set i repl) p, List.length_set]
    by_cases hL : p ∈ L ∧ p < r.length
    · rw [if_pos hL, if_pos ⟨List.mem_cons_of_mem i hL.1, hL.2⟩]
    · rw [if_neg hL]
      by_cases hip : p = i
      · subst hip
        by_cases hlt : p < r.length
        · rw [List.getElem?_set_eq_of_lt repl hlt,
            if_pos ⟨List.mem_cons_self p L, hlt⟩]
        · rw [if_neg (fun hh => hlt hh.2),
            List.getElem?_eq_none (by rw [List.length_set]; omega),
            List.getElem?_eq_none (le_of_not_lt hlt)]
      · rw [List.getElem?_set_ne (fun hh => hip hh.symm)]
        by_cases hmem : p ∈ i :: L ∧ p < r.length
        · rcases List.mem_cons.mp hmem.1 with h1 | h1
          · exact absurd h1 hip
          · exact absurd ⟨h1, hmem.2⟩ hL
        · rw [if_neg hmem]

/-- A position absent from the collected index list holds a character that
passes the replacement test. -/
theorem not_mem_avnIndices :
    ∀ (s : Str) (k p : Nat) (c : Char), s[p]? = some c →
      (k + p) ∉ avnIndices k s → avnInvalid c = false
  | [], _, p, c, hg, _ => by simp at hg
  | d :: rest, k, 0, c, hg, h => by
    have hdc : d = c := by simpa using hg
    subst hdc
    by_cases hd : avnInvalid d = true
    · exact absurd (by simp [avnIndices, hd]) h
    · exact Bool.eq_false_iff.mpr hd
  | d :: rest, k, p + 1, c, hg, h => by
    simp only [List.getElem?_cons_succ] at hg
    refine not_mem_avnIndices rest (k + 1) p c hg (fun hmem => h ?_)
    have : k + (p + 1) = k + 1 + p := by omega
    rw [this]
    by_cases hd : avnInvalid d <;> simp [avnIndices, hd, hmem]

/-- A string of characters that all pass the replacement test collects no
indices. -/
theorem avnIndices_nil_of_good :
    ∀ (s : Str) (k : Nat), (∀ c ∈ s, avnInvalid c = false) → avnIndices k s = []
  | [], _, _ => rfl
  | c :: rest, k, h => by
    have hc := h c (List.mem_cons_self c rest)
    simp only [avnIndices, hc]
    exact avnIndices_nil_of_good rest (k + 1)
      (fun d hd => h d (List.mem_cons_of_mem c hd))

/-- A character passing the first-position validity test also passes the
replacement test. -/
theorem avnInvalid_false_of_firstOk (c : Char) (h : ivnFirstBad c = false) :
    avnInvalid c = false := by
  by_cases hb : avnInvalid c = true
  · exfalso
    rw [avnInvalid_iff] at hb
    have hnp : ¬ ((c.toNat < 97 ∨ 122 < c.toNat) ∧ c.toNat ≠ 95) :=
      fun p => Bool.eq_false_iff.mp h ((ivnFirstBad_iff c).mpr p)
    rcases hb with ⟨h1, _, h3⟩
    exact hnp ⟨h1, h3⟩
  · exact Bool.eq_false_iff.mpr hb

/-- A character surviving the sanitizer's replacement test is not
whitespace. -/
theorem not_ws_of_good (c : Char) (h : avnInvalid (rustToLower c) = false) :
    rustIsWS c = false := by
  by_cases hw : rustIsWS c = true
  · rw [ws_invalid c hw] at h
    exact absurd h (by simp)
  · exact Bool.eq_false_iff.mpr hw

/-- The non-first loop of `is_valid_name` succeeds exactly on strings of
rest-valid characters. -/
theorem ivnLoop_false_iff :
    ∀ l : Str, ivnLoop false l = true ↔ ∀ c ∈ l, ivnRestBad c = false
  | [] => by simp [ivnLoop]
  | c :: rest => by
    simp only [ivnLoop]
    by_cases hb : ivnRestBad c = true
    · simp [hb]
    · have hb' : ivnRestBad c = false := Bool.eq_false_iff.mpr hb
      simp [hb', ivnLoop_false_iff rest]

/-- Every character of a sanitized name survives the replacement test (after
lowercasing). -/
theorem avn_good_chars (name : Str) :
    ∀ c ∈ as_valid_name name '_', avnInvalid (rustToLower c) = false := by
  intro c hc
  simp only [as_valid_name] at hc
  split at hc
  · have hc' : c = '_' := by simpa using hc
    subst hc'
    decide
  · have hR : ∀ d ∈ (avnIndices 0 (lowerStr (rustTrim name))).foldl
        (fun r i => r.set i '_') (rustTrim name),
        avnInvalid (rustToLower d) = false := by
      intro d hd
      obtain ⟨p, hp⟩ := List.mem_iff_getElem?.mp hd
      rw [foldl_set_getElem?] at hp
      by_cases hin : p ∈ avnIndices 0 (lowerStr (rustTrim name)) ∧ p < (rustTrim name).length
      · rw [if_pos hin] at hp
        have hd' : '_' = d := by simpa using hp
        subst hd'
        decide
      · rw [if_neg hin] at hp
        have hplt : p < (rustTrim name).length := (List.getElem?_eq_some.mp hp).1
        have hnin : p ∉ avnIndices 0 (lowerStr (rustTrim name)) := fun hm => hin ⟨hm, hplt⟩
        have hlo : (lowerStr (rustTrim name))[p]? = some (rustToLower d) := by
          simp [lowerStr, hp]
        exact not_mem_avnIndices (lowerStr (rustTrim name)) 0 p (rustToLower d) hlo
          (by simpa using hnin)
    split at hc
    · rcases List.mem_cons.mp hc with rfl | hcR
      · decide
      · exact hR c hcR
    · exact hR c hc

/-- The sanitizer never returns the empty string. -/
theorem avn_ne_nil (name : Str) : as_valid_name name '_' ≠ [] := by
  simp only [as_valid_name]
  split
  · simp
  · rename_i hne
    split
    · simp
    · intro h
      have hlen := foldl_set_length '_' (avnIndices 0 (lowerStr (rustTrim name)))
        (rustTrim name)
      rw [h] at hlen
      have : rustTrim name = [] := List.length_eq_zero.mp hlen.symm
      rw [this] at hne
      simp at hne

/-- The first character of a sanitized name is not a digit after
lowercasing. -/
theorem avn_head_not_digit (name : Str) (c : Char) (rest : Str)
    (h : as_valid_name name '_' = c :: rest) :
    ('0' ≤ rustToLower c && rustToLower c ≤ '9') = false := by
  simp only [as_valid_name] at h
  split at h
  · have hc' : '_' = c := (List.cons.injEq _ _ _ _ ▸ h).1
    subst hc'
    decide
  · rename_i hne
    split at h
    · have hc' : '_' = c := (List.cons.injEq _ _ _ _ ▸ h).1
      subst hc'
      decide
    · rename_i hns
      have h0 : ((avnIndices 0 (lowerStr (rustTrim name))).foldl
          (fun r i => r.set i '_') (rustTrim name))[0]? = some c := by
        rw [h]
        simp
      rw [foldl_set_getElem?] at h0
      by_cases hin : 0 ∈ avnIndices 0 (lowerStr (rustTrim name)) ∧ 0 < (rustTrim name).length
      · rw [if_pos hin] at h0
        have hc' : '_' = c := by simpa using h0
        subst hc'
        decide
      · rw [if_neg hin] at h0
        have hlt : 0 < (rustTrim name).length := (List.getElem?_eq_some.mp h0).1
        have hnin : 0 ∉ avnIndices 0 (lowerStr (rustTrim name)) := fun hm => hin ⟨hm, hlt⟩
        cases hr : rustTrim name with
        | nil => rw [hr] at h0; simp at h0
        | cons d r' =>
          rw [hr] at h0
          have hdc : d = c := by simpa using h0
          subst hdc
          rw [hr] at hns hnin
          have hgood : avnInvalid (rustToLower d) = false := by
            by_cases hb : avnInvalid (rustToLower d) = true
            · exact absurd (by simp [lowerStr, avnIndices, hb]) hnin
            · exact Bool.eq_false_iff.mpr hb
          simp only [lowerStr, List.map_cons, avnNumstart, hgood, Bool.not_false,
            Bool.true_and, Bool.not_eq_true] at hns
          exact hns

/-- The character-level sanitizer model is idempotent at `_` on every
character list. -/
theorem avn_model_idempotent (s : Str) :
    as_valid_name (as_valid_name s '_') '_' = as_valid_name s '_' := by
  have hgood := avn_good_chars s
  have hne := avn_ne_nil s
  obtain ⟨c0, rest0, hout⟩ : ∃ c0 rest0, as_valid_name s '_' = c0 :: rest0 := by
    cases h : as_valid_name s '_' with
    | nil => exact absurd h hne
    | cons a l => exact ⟨a, l, rfl⟩
  have hhd := avn_head_not_digit s c0 rest0 hout
  rw [hout] at hgood ⊢
  conv_lhs => rw [as_valid_name]
  rw [rustTrim_eq_self _ (fun c hc => not_ws_of_good c (hgood c hc))]
  rw [if_neg (by simp)]
  have hlo : ∀ c ∈ lowerStr (c0 :: rest0), avnInvalid c = false := by
    intro c hc
    obtain ⟨d, hd, rfl⟩ := List.mem_map.mp hc
    exact hgood d hd
  dsimp only
  rw [avnIndices_nil_of_good _ 0 hlo]
  simp only [lowerStr, List.map_cons, avnNumstart, hhd, Bool.and_false,
    List.foldl_nil]
  rfl

/-- The character-level sanitizer model returns an already-valid name
unchanged. -/
theorem avn_model_fixes_valid (s : Str) (hv : is_valid_name s = true) :
    as_valid_name s '_' = s := by
  cases s with
  | nil => simp [is_valid_name] at hv
  | cons c0 s' =>
    have hv' : ivnLoop true (rustToLower c0 :: List.map rustToLower s') = true := by
      simpa [is_valid_name, lowerStr] using hv
    simp only [ivnLoop] at hv'
    have hfb : ivnFirstBad (rustToLower c0) = false := by
      by_cases hb : ivnFirstBad (rustToLower c0) = true
      · rw [if_pos hb] at hv'
        exact absurd hv' (by simp)
      · exact Bool.eq_false_iff.mpr hb
    rw [if_neg (by rw [hfb]; simp)] at hv'
    have hrest := (ivnLoop_false_iff _).mp hv'
    have hgoodall : ∀ c ∈ c0 :: s', avnInvalid (rustToLower c) = false := by
      intro c hc
      rcases List.mem_cons.mp hc with rfl | hc'
      · exact avnInvalid_false_of_firstOk _ hfb
      · exact ivnRestBad_eq_avnInvalid _ ▸
          hrest (rustToLower c) (List.mem_map_of_mem _ hc')
    conv_lhs => rw [as_valid_name]
    rw [rustTrim_eq_self _ (fun c hc => not_ws_of_good c (hgoodall c hc))]
    rw [if_neg (by simp)]
    have hlo : ∀ c ∈ lowerStr (c0 :: s'), avnInvalid c = false := by
      intro c hc
      obtain ⟨d, hd, rfl⟩ := List.mem_map.mp hc
      exact hgoodall d hd
    dsimp only
    rw [avnIndices_nil_of_good _ 0 hlo]
    simp only [lowerStr, List.map_cons, avnNumstart,
      digit_false_of_firstOk (rustToLower c0) hfb, Bool.and_false,
      List.foldl_nil]
    rfl

/-- Byte width one characterizes exactly the ASCII code points. -/
theorem utf8Width_eq_one_iff (c : Char) : utf8Width c = 1 ↔ c.toNat < 128 := by
  constructor
  · intro h1
    by_contra hc
    unfold utf8Width at h1
    rw [if_neg hc] at h1
    split at h1
    · omega
    · split at h1 <;> omega
  · intro hc
    unfold utf8Width
    rw [if_pos hc]

/-- Unpacking the all-single-byte hypothesis. -/
theorem single_byte_of_all (s : Str)
    (h : s.all (fun c => utf8Width c == 1) = true) : ∀ c ∈ s, c.toNat < 128 := by
  intro c hc
  have h1 := List.all_eq_true.mp h c hc
  rw [beq_iff_eq] at h1
  exact (utf8Width_eq_one_iff c).mp h1

/-- On an ASCII character the full Unicode lowercase mapping is the
single-character shift. -/
theorem rustToLowercase_single (c : Char) (h : c.toNat < 128) :
    rustToLowercase c = [rustToLower c] := by
  unfold rustToLowercase rustToLower
  by_cases hA : 'A' ≤ c ∧ c ≤ 'Z'
  · rw [if_pos hA, if_pos hA]
  · rw [if_neg hA, if_neg hA, if_neg (by omega : ¬ c.toNat = 0x130),
      if_neg (by omega : ¬ c.toNat = 0x212A)]

/-- Lowercasing ASCII text flattens to the character-wise map. -/
theorem flatten_lowercase_of_single :
    ∀ l : Str, (∀ c ∈ l, c.toNat < 128) →
      (l.map rustToLowercase).flatten = lowerStr l
  | [], _ => rfl
  | c :: rest, h => by
    simp only [List.map_cons, List.flatten_cons, lowerStr]
    rw [rustToLowercase_single c (h c (List.mem_cons_self c rest)),
      flatten_lowercase_of_single rest (fun d hd => h d (List.mem_cons_of_mem c hd))]
    rfl

/-- The byte string of ASCII text is its code-point list. -/
theorem strBytes_of_single :
    ∀ l : Str, (∀ c ∈ l, c.toNat < 128) → strBytes l = l.map Char.toNat
  | [], _ => rfl
  | c :: rest, h => by
    have hc := h c (List.mem_cons_self c rest)
    have hb : utf8Bytes c = [c.toNat] := by
      unfold utf8Bytes
      dsimp only
      rw [if_pos hc]
    simp only [strBytes, List.map_cons, List.flatten_cons, hb]
    have := strBytes_of_single rest (fun d hd => h d (List.mem_cons_of_mem c hd))
    simp only [strBytes] at this
    rw [this]
    rfl

/-- Decomposition of `List.set` at an in-range index. -/
theorem set_eq_take_cons_drop :
    ∀ (l : Str) (i : Nat) (a : Char), i < l.length →
      l.set i a = l.take i ++ a :: l.drop (i + 1)
  | _ :: _, 0, _, _ => rfl
  | c :: rest, i + 1, a, h => by
    simp only [List.set_cons_succ, List.take_succ_cons, List.drop_succ_cons,
      List.cons_append]
    rw [set_eq_take_cons_drop rest i a (by simpa using h)]

/-- Members of a `set` result come from the original list or are the new
element. -/
theorem mem_set_cases :
    ∀ (l : Str) (i : Nat) (a c : Char), c ∈ l.set i a → c ∈ l ∨ c = a
  | [], _, _, _, h => by simp at h
  | x :: rest, 0, a, c, h => by
    simp only [List.set_cons_zero] at h
    rcases List.mem_cons.mp h with rfl | h'
    · exact Or.inr rfl
    · exact Or.inl (List.mem_cons_of_mem x h')
  | x :: rest, i + 1, a, c, h => by
    simp only [List.set_cons_succ] at h
    rcases List.mem_cons.mp h with rfl | h'
    · exact Or.inl (List.mem_cons_self c rest)
    · rcases mem_set_cases rest i a c h' with h2 | h2
      · exact Or.inl (List.mem_cons_of_mem x h2)
      · exact Or.inr h2

/-- Collected replacement indices stay below the end of the scanned text. -/
theorem avnIndices_lt :
    ∀ (s : Str) (k p : Nat), p ∈ avnIndices k s → p < k + s.length
  | [], _, _, h => by simp [avnIndices] at h
  | c :: rest, k, p, h => by
    simp only [avnIndices] at h
    by_cases hc : avnInvalid c = true
    · rw [if_pos hc] at h
      rcases List.mem_cons.mp h with rfl | h'
      · simp
      · have := avnIndices_lt rest (k + 1) p h'
        simp only [List.length_cons]
        omega
    · rw [if_neg hc] at h
      have := avnIndices_lt rest (k + 1) p h
      simp only [List.length_cons]
      omega

/-- On ASCII text the byte-level remove/insert fold of `as_valid_name_rust`
computes the byte string of the character-level `List.set` fold: every
replacement index hits a one-byte character on a char boundary. -/
theorem foldlM_removeInsert :
    ∀ (inds : List Nat) (cur : Str),
      (∀ c ∈ cur, c.toNat < 128) → (∀ i ∈ inds, i < cur.length) →
      List.foldlM (removeInsertByte '_') (strBytes cur) inds =
        some (strBytes (inds.foldl (fun r i => r.set i '_') cur))
  | [], cur, _, _ => by simp [List.foldlM]
  | i :: rest, cur, hsb, hlt => by
    have hilt : i < cur.length := hlt i (List.mem_cons_self i rest)
    have hmem : cur.get ⟨i, hilt⟩ ∈ cur := List.get_mem cur i hilt
    have hlt128 := hsb _ hmem
    have hget : (strBytes cur).get? i = some ((cur.get ⟨i, hilt⟩).toNat) := by
      rw [strBytes_of_single cur hsb, List.get?_eq_getElem?]
      rw [List.getElem?_eq_getElem (by simpa using hilt)]
      simp [List.get_eq_getElem]
    have hstep : removeInsertByte '_' (strBytes cur) i =
        some (strBytes (cur.set i '_')) := by
      simp only [removeInsertByte, hget]
      rw [if_neg (by omega), if_pos hlt128]
      rw [set_eq_take_cons_drop cur i '_' hilt,
        strBytes_of_single cur hsb,
        strBytes_of_single (cur.take i ++ '_' :: cur.drop (i + 1))
          (by
            intro d hd
            rcases List.mem_append.mp hd with h1 | h1
            · exact hsb d (List.mem_of_mem_take h1)
            · rcases List.mem_cons.mp h1 with rfl | h1
              · decide
              · exact hsb d (List.mem_of_mem_drop h1))]
      simp only [List.map_append, List.map_take, List.map_drop, List.map_cons]
      rw [show utf8Bytes '_' = ['_'.toNat] from by decide, List.append_assoc,
        List.singleton_append]
    simp only [List.foldlM, hstep]
    show List.foldlM (removeInsertByte '_') (strBytes (cur.set i '_')) rest = _
    rw [foldlM_removeInsert rest (cur.set i '_')
      (fun d hd => by
        rcases mem_set_cases cur i '_' d hd with h1 | h1
        · exact hsb d h1
        · subst h1; decide)
      (fun j hj => by rw [List.length_set]; exact hlt j (List.mem_cons_of_mem i hj))]
    rw [List.foldl_cons]

/-- On single-byte text the byte-faithful sanitizer returns normally and
agrees with the character-level model. -/
theorem avn_rust_agrees (s : Str) (h : ∀ c ∈ s, c.toNat < 128) :
    as_valid_name_rust s '_' = some (strBytes (as_valid_name s '_')) := by
  have htrim : ∀ c ∈ rustTrim s, c.toNat < 128 := by
    intro c hc
    apply h
    unfold rustTrim at hc
    have h1 := List.mem_reverse.mp hc
    have h2 := (List.dropWhile_sublist (l := (s.dropWhile rustIsWS).reverse)
      (p := rustIsWS)).mem h1
    have h3 := List.mem_reverse.mp h2
    exact (List.dropWhile_sublist (l := s) (p := rustIsWS)).mem h3
  simp only [as_valid_name_rust, as_valid_name]
  by_cases he : (rustTrim s).isEmpty
  · rw [if_pos he, if_pos he]
  · rw [if_neg he, if_neg he]
    rw [flatten_lowercase_of_single (rustTrim s) htrim]
    rw [foldlM_removeInsert (avnIndices 0 (lowerStr (rustTrim s))) (rustTrim s) htrim
      (fun i hi => by
        have := avnIndices_lt (lowerStr (rustTrim s)) 0 i hi
        simpa [lowerStr] using this)]
    dsimp only
    by_cases hns : avnNumstart (lowerStr (rustTrim s)) = true
    · rw [if_pos hns, if_pos hns]
      rfl
    · rw [if_neg hns, if_neg hns]

/-- C5, counterexample: the claim says `as_valid_name` terminates normally
for every string, but at `\u{0130}` (and likewise at `\u{212A}\u{E0}`) the
replacement index — a character count of the Unicode-lowercased text — is
applied as a byte index inside a multi-byte character, off a char boundary,
and `String::remove` panics. -/
theorem claim5_counterexample :
    as_valid_name_rust ("\u0130".data) '_' = none
    ∧ as_valid_name_rust ("\u212A\u00E0".data) '_' = none := ⟨rfl, rfl⟩

/-- C5, amended: on strings of single-byte characters — where the source's
char-counted indices are byte indices and the only text this program ever
feeds the sanitizer — `as_valid_name` terminates normally (agreeing with
the character-level model), is idempotent, and returns an already-valid
name unchanged. -/
theorem claim5_single_byte_sanitizer :
    (∀ s : Str, s.all (fun c => utf8Width c == 1) = true →
      as_valid_name_rust s '_' = some (strBytes (as_valid_name s '_')))
    ∧ (∀ s : Str, s.all (fun c => utf8Width c == 1) = true →
      as_valid_name (as_valid_name s '_') '_' = as_valid_name s '_')
    ∧ (∀ s : Str, s.all (fun c => utf8Width c == 1) = true →
      is_valid_name s = true → as_valid_name s '_' = s) :=
  ⟨fun s h => avn_rust_agrees s (single_byte_of_all s h),
   fun s _ => avn_model_idempotent s,
   fun s _ hv => avn_model_fixes_valid s hv⟩

/-- C5 witness: all three conjuncts at concrete single-byte inputs. -/
theorem claim5_witness :
    as_valid_name_rust ("banana".data) '_' =
      some (strBytes (as_valid_name ("banana".data) '_'))
    ∧ as_valid_name (as_valid_name ("a 1".data) '_') '_' =
      as_valid_name ("a 1".data) '_'
    ∧ as_valid_name ("banana".data) '_' = "banana".data :=
  ⟨claim5_single_byte_sanitizer.1 ("banana".data) rfl,
   claim5_single_byte_sanitizer.2.1 ("a 1".data) rfl,
   claim5_single_byte_sanitizer.2.2 ("banana".data) rfl rfl⟩

end Parsecfg
